import Mathlib

/-!
Verification of the constant / static-data materialization engine of a
cranelift-based compiler backend (src/constant.rs).

The shallow embedding below translates the data model and operations of
src/constant.rs.  External collaborators (the rustc evaluator, the
cranelift-module symbol table) are modelled as an explicit environment
record and an explicit module state, following the interface the code
uses (declare_data / define_data / declare_func_in_data and the
allocation store).

Machine integers are modelled as Nat / Int with explicit reductions
modulo powers of two where the source performs casts.  Fallible code
(asserts, unwraps, span_fatal) returns Except.
-/

namespace ClifConst

/-- AllocId: opaque identity of an evaluated allocation (rustc AllocId). -/
abbrev AllocId := Nat

/-- DefId: identity of a static definition (rustc DefId). -/
abbrev DefId := Nat

/-- DataId: handle returned by the symbol table.  cranelift-module
deduplicates declarations by symbol name, and two requests for the same
name yield the same handle, so the handle is modelled as the name. -/
abbrev DataId := String

/-- FuncId: handle of an imported function; modelled by the instance id
since import_function deduplicates by instance symbol name. -/
abbrev FuncId := Nat

/-- Byte endianness used by read_target_uint. -/
inductive Endian
  | little
  | big
deriving DecidableEq

/-- cranelift_module::Linkage, restricted to the variants the code uses. -/
inductive Linkage
  | import_
  | local_
  | preemptible
  | export_
deriving DecidableEq

/-- rustc Allocation: raw bytes, alignment in bytes, and the relocation
list, each relocation being (byte offset, target AllocId). -/
structure Allocation where
  bytes : List Nat
  align : Nat
  relocations : List (Nat × AllocId)
deriving DecidableEq

/-- rustc GlobalAlloc as returned by tcx.alloc_map.lock().get(..): the
kind of the allocation behind an AllocId.  The Memory payload is
discarded by the code (GlobalAlloc::Memory(_)), so it is not carried. -/
inductive GlobalAlloc
  | function (inst : Nat)
  | memory
  | static (d : DefId)
deriving DecidableEq

/-- TodoItem from src/constant.rs. -/
inductive TodoItem
  | alloc (id : AllocId)
  | static (d : DefId)
deriving DecidableEq

/-- Result kinds of rustc ConstValue, restricted to what
try_to_bits distinguishes: a scalar with a known byte size, or
anything by-reference. -/
inductive ConstVal
  | scalar (bits : Nat) (size : Nat)
  | byRef
deriving DecidableEq

/-- Float widths (syntax::ast::FloatTy). -/
inductive FloatWidth
  | f32
  | f64
deriving DecidableEq

/-- The type kinds trans_const_value dispatches on. -/
inductive TyKind
  | bool
  | uint (size : Nat)
  | int (size : Nat)
  | float (f : FloatWidth)
  | fnDef
  | other
deriving DecidableEq

/-- layout.size (in bytes) of a type, as used by the scalar branches of
trans_const_value.  Only the scalar kinds matter; the remaining kinds
never consult the size. -/
def TyKind.size : TyKind → Nat
  | TyKind.bool => 1
  | TyKind.uint s => s
  | TyKind.int s => s
  | TyKind.float FloatWidth.f32 => 4
  | TyKind.float FloatWidth.f64 => 8
  | TyKind.fnDef => 0
  | TyKind.other => 0

/-- A monomorphized constant: its type and its evaluated value. -/
structure MirConst where
  ty : TyKind
  val : ConstVal
deriving DecidableEq

/-- ConstValue::try_to_bits(size): succeeds exactly on a scalar of the
requested size, yielding a bit pattern below 2 ^ (8 * size). -/
def tryToBits : ConstVal → Nat → Option Nat
  | ConstVal.scalar bits sz, size =>
    if sz = size ∧ bits < 2 ^ (8 * size) then some bits else none
  | ConstVal.byRef, _ => none

/-- The environment: the external collaborators of the engine
(evaluator allocation store, tcx queries, layout facts).  All claims
hold for any environment satisfying the stated hypotheses. -/
structure Env where
  ptrSize : Nat
  endian : Endian
  memory : AllocId → Allocation
  allocMap : AllocId → GlobalAlloc
  isForeignItem : DefId → Bool
  staticAlloc : DefId → Allocation
  symbolName : DefId → String
  isReachableNonGeneric : DefId → Bool
  isMutableStatic : DefId → Bool
  isFreeze : DefId → Bool
  staticAlignPref : DefId → Nat
  staticTyIsRawPtr : DefId → Bool
  evalPlaceAlloc : MirConst → AllocId

/-- One data definition recorded by the symbol table: the id it was
defined under, the byte buffer, the data-address relocation entries
(offset, referenced data id, addend) and the function-address
relocation entries (offset, function id). -/
structure DataDef where
  id : DataId
  bytes : List Nat
  dataRelocs : List (Nat × DataId × Int)
  funcRelocs : List (Nat × FuncId)
deriving DecidableEq

/-- cranelift_module::ModuleError, restricted to the variants the code
matches on; `other` stands for every remaining error variant. -/
inductive ModuleError
  | duplicateDefinition (id : DataId)
  | other (msg : String)
deriving DecidableEq

/-- State of the external symbol table (cranelift Module).  declareCalls
and defineCalls record every call made to declare_data / define_data,
so an unchanged trace proves the absence of calls. -/
structure ModuleState where
  declareCalls : List (DataId × Linkage × Bool × Option Nat)
  declared : List DataId
  defs : List DataDef
  defineCalls : List DataId
  funcs : List FuncId
deriving DecidableEq

/-- Ids that currently have a definition in the module. -/
def ModuleState.definedIds (m : ModuleState) : List DataId :=
  m.defs.map DataDef.id

/-- Module::declare_data: deduplicates by name and returns the handle
for the name; the call and its arguments are recorded. -/
def declareData (m : ModuleState) (name : DataId) (linkage : Linkage)
    (writable : Bool) (align : Option Nat) : DataId × ModuleState :=
  (name,
    { m with
      declareCalls := m.declareCalls ++ [(name, linkage, writable, align)]
      declared := if name ∈ m.declared then m.declared else m.declared ++ [name] })

/-- cranelift DataContext: buffer plus pending relocation entries. -/
structure DataContext where
  bytes : List Nat
  dataRelocs : List (Nat × DataId × Int)
  funcRelocs : List (Nat × FuncId)
deriving DecidableEq

/-- DataContext::new(). -/
def DataContext.new : DataContext :=
  { bytes := [], dataRelocs := [], funcRelocs := [] }

/-- DataContext::define(bytes). -/
def DataContext.defineBytes (ctx : DataContext) (b : List Nat) : DataContext :=
  { ctx with bytes := b }

/-- DataContext::write_data_addr(offset, global_value, addend). -/
def DataContext.writeDataAddr (ctx : DataContext) (offset : Nat) (id : DataId)
    (addend : Int) : DataContext :=
  { ctx with dataRelocs := ctx.dataRelocs ++ [(offset, id, addend)] }

/-- DataContext::write_function_addr(offset, local_func_id). -/
def DataContext.writeFunctionAddr (ctx : DataContext) (offset : Nat)
    (f : FuncId) : DataContext :=
  { ctx with funcRelocs := ctx.funcRelocs ++ [(offset, f)] }

/-- Module::define_data: fails with DuplicateDefinition when the id is
already defined, otherwise records the definition.  Every call is
recorded in defineCalls. -/
def defineData (m : ModuleState) (id : DataId) (ctx : DataContext) :
    Except ModuleError Unit × ModuleState :=
  if id ∈ m.definedIds then
    (Except.error (ModuleError.duplicateDefinition id),
      { m with defineCalls := m.defineCalls ++ [id] })
  else
    (Except.ok (),
      { m with
        defs := m.defs ++ [{ id := id, bytes := ctx.bytes,
                             dataRelocs := ctx.dataRelocs,
                             funcRelocs := ctx.funcRelocs }]
        defineCalls := m.defineCalls ++ [id] })

/-- Modelled from the spec: crate::abi::import_function (declared but
not under src/) declares an imported-function reference for an
instance, idempotently; the spec calls it declare_function_ref. -/
def importFunction (m : ModuleState) (inst : Nat) : FuncId × ModuleState :=
  (inst, { m with funcs := if inst ∈ m.funcs then m.funcs else m.funcs ++ [inst] })

/-- Little-endian value of a byte list. -/
def readLittleEndian : List Nat → Nat
  | [] => 0
  | b :: rest => b + 256 * readLittleEndian rest

/-- rustc read_target_uint: decode the byte slice as an unsigned
integer in the target's endianness. -/
def read_target_uint (e : Endian) (bs : List Nat) : Nat :=
  match e with
  | Endian.little => readLittleEndian bs
  | Endian.big => readLittleEndian bs.reverse

/-- The value of `n as i64` for an unsigned 128-bit value n: truncation
to 64 bits, reinterpreted in two's complement. -/
def i64_of_u128 (n : Nat) : Int :=
  let r : Nat := n % 2 ^ 64
  if r < 2 ^ 63 then (r : Int) else (r : Int) - 2 ^ 64

/-- rustc::mir::interpret::sign_extend(value, size): sign-extend the
low size*8 bits of value to 128 bits.  Mirrors the source:
(((value << shift) as i128) >> shift) as u128 with
shift = 128 - size.bits(); the arithmetic right shift of an i128 is
flooring division by 2 ^ shift. -/
def sign_extend (value : Nat) (size : Nat) : Nat :=
  let bits := size * 8
  if bits = 0 then 0
  else
    let shift := 128 - bits
    let shifted : Nat := (value * 2 ^ shift) % 2 ^ 128
    let signed : Int :=
      if shifted < 2 ^ 127 then (shifted : Int) else (shifted : Int) - 2 ^ 128
    ((Int.fdiv signed (2 ^ shift)) % (2 ^ 128 : Int)).toNat

/-- The padding loop of define_all_allocs:
while bytes.len() % 16 != 0 { bytes.push(0xde) }. -/
def padTo16 (bytes : List Nat) : List Nat :=
  if bytes.length % 16 = 0 then bytes
  else padTo16 (bytes ++ [0xde])
termination_by (16 - bytes.length % 16) % 16
decreasing_by
  simp only [List.length_append, List.length_cons, List.length_nil]
  omega

/-- data_id_for_alloc_id: declare __alloc_{id} with Local linkage,
non-writable, alignment truncated to u8. -/
def data_id_for_alloc_id (m : ModuleState) (allocId : AllocId) (align : Nat) :
    DataId × ModuleState :=
  declareData m ("__alloc_" ++ toString allocId) Linkage.local_ false
    (some (align % 256))

/-- Fatal outcomes: a user-facing diagnostic attached to a definition
site (span_fatal), or an internal panic (failed assert / unwrap / bug). -/
inductive FatalError
  | spanFatal (span : DefId) (msg : String)
  | panicked (msg : String)
deriving DecidableEq

/-- The call-site handling of define_data's result for the weak-static
default body: Err(DuplicateDefinition(_)) is swallowed, any other error
is unwrapped (a panic, modelled as none), Ok passes through. -/
def handleWeakDefineResult : Except ModuleError Unit → Option Unit
  | Except.error (ModuleError.duplicateDefinition _) => some ()
  | Except.error _ => none
  | Except.ok _ => some ()

/-- data_id_for_static: declare the static's symbol with the requested
linkage, mutability and preferred alignment; for Preemptible linkage,
require a raw-pointer type (else span_fatal at the static's span) and
immediately define a zero-filled pointer-width default body, tolerating
a duplicate definition. -/
def data_id_for_static (env : Env) (m : ModuleState) (defId : DefId)
    (linkage : Linkage) : Except FatalError (DataId × ModuleState) :=
  let symbolName := env.symbolName defId
  let isMutable := if env.isMutableStatic defId then true else !(env.isFreeze defId)
  let align := env.staticAlignPref defId
  if align ≤ 255 then
    let declared := declareData m symbolName linkage isMutable (some align)
    let dataId := declared.1
    let m := declared.2
    if linkage = Linkage.preemptible then
      if env.staticTyIsRawPtr defId then
        let zeroBytes := List.replicate env.ptrSize 0
        let dataCtx := DataContext.new.defineBytes zeroBytes
        let res := defineData m dataId dataCtx
        match handleWeakDefineResult res.1 with
        | some _ => Except.ok (dataId, res.2)
        | none => Except.error (FatalError.panicked ("define_data failed"))
      else
        Except.error (FatalError.spanFatal defId
          ("must have type `*const T` or `*mut T` due to `#[linkage]` attribute"))
    else
      Except.ok (dataId, m)
  else
    Except.error (FatalError.panicked ("align does not fit in u8"))

/-- trans_const_place: evaluates the constant into a fresh allocation,
pushes Alloc onto the todo set and declares the data id for it. -/
def trans_const_place (env : Env) (m : ModuleState) (todo : List TodoItem)
    (c : MirConst) : Option ((DataId × Nat) × ModuleState × List TodoItem) :=
  let allocId := env.evalPlaceAlloc c
  let alloc := env.memory allocId
  let todo' :=
    if TodoItem.alloc allocId ∈ todo then todo else todo ++ [TodoItem.alloc allocId]
  let declared := data_id_for_alloc_id m allocId alloc.align
  some ((declared.1, allocId), declared.2, todo')

/-- The value produced by trans_const_value: an immediate scalar, an
immediate float, the function-item sentinel (by_ref of an iconst), or a
place backed by a data object. -/
inductive CValue
  | constInt (bits : Nat)
  | constF32 (bits : Nat)
  | constF64 (bits : Nat)
  | byRefIconst (addr : Nat)
  | byRefData (id : DataId)
deriving DecidableEq

/-- trans_const_value from src/constant.rs: dispatch on the type kind;
scalar kinds go through try_to_bits (with sign extension for signed
integers), function items produce the iconst sentinel whose value is
the pointer width in bytes, everything else goes through
trans_const_place. -/
def trans_const_value (env : Env) (m : ModuleState) (todo : List TodoItem)
    (c : MirConst) : Option (CValue × ModuleState × List TodoItem) :=
  match c.ty with
  | TyKind.bool =>
    match tryToBits c.val c.ty.size with
    | some bits => some (CValue.constInt bits, m, todo)
    | none => none
  | TyKind.uint _ =>
    match tryToBits c.val c.ty.size with
    | some bits => some (CValue.constInt bits, m, todo)
    | none => none
  | TyKind.int _ =>
    match tryToBits c.val c.ty.size with
    | some bits => some (CValue.constInt (sign_extend bits c.ty.size), m, todo)
    | none => none
  | TyKind.float FloatWidth.f32 =>
    match tryToBits c.val c.ty.size with
    | some bits => if bits < 2 ^ 32 then some (CValue.constF32 bits, m, todo) else none
    | none => none
  | TyKind.float FloatWidth.f64 =>
    match tryToBits c.val c.ty.size with
    | some bits => if bits < 2 ^ 64 then some (CValue.constF64 bits, m, todo) else none
    | none => none
  | TyKind.fnDef => some (CValue.byRefIconst env.ptrSize, m, todo)
  | TyKind.other =>
    match trans_const_place env m todo c with
    | some ((dataId, _), m', todo') => some (CValue.byRefData dataId, m', todo')
    | none => none

/-- Scalar type kinds (bool, fixed-width ints, fixed-width floats). -/
def TyKind.isScalarConst : TyKind → Bool
  | TyKind.bool => true
  | TyKind.uint _ => true
  | TyKind.int _ => true
  | TyKind.float _ => true
  | _ => false

/-- Immediate results (never backed by a data object). -/
def CValue.isImmediate : CValue → Bool
  | CValue.constInt _ => true
  | CValue.constF32 _ => true
  | CValue.constF64 _ => true
  | _ => false

/-- Insertion into the todo hash set: a no-op when already present. -/
def insertTodo (item : TodoItem) (todo : List TodoItem) : List TodoItem :=
  if item ∈ todo then todo else todo ++ [item]

/-- State carried through the define_all_allocs loop: the session's
todo and done sets and the module. -/
structure LoopState where
  todo : List TodoItem
  done : List DataId
  module : ModuleState
deriving DecidableEq

/-- Processing of the relocation list of the allocation being built:
function targets assert a zero addend and emit a function-address
entry; memory targets are pushed onto todo and emit a data-address
entry against data_id_for_alloc_id; static targets resolve with Import
linkage (never enqueued) and emit a data-address entry.  The addend is
recovered from the pointer-width bytes at the relocation offset. -/
def processRelocs (env : Env) (alloc : Allocation) :
    List (Nat × AllocId) → List TodoItem → ModuleState → DataContext →
    Except FatalError (List TodoItem × ModuleState × DataContext)
  | [], todo, m, ctx => Except.ok (todo, m, ctx)
  | (offset, reloc) :: rest, todo, m, ctx =>
    if offset + env.ptrSize ≤ alloc.bytes.length then
      let addend := read_target_uint env.endian ((alloc.bytes.drop offset).take env.ptrSize)
      match env.allocMap reloc with
      | GlobalAlloc.function inst =>
        if addend = 0 then
          let imported := importFunction m inst
          processRelocs env alloc rest todo imported.2
            (ctx.writeFunctionAddr offset imported.1)
        else
          Except.error (FatalError.panicked ("assertion failed: addend == 0"))
      | GlobalAlloc.memory =>
        let todo' := insertTodo (TodoItem.alloc reloc) todo
        let declared := data_id_for_alloc_id m reloc alloc.align
        processRelocs env alloc rest todo' declared.2
          (ctx.writeDataAddr offset declared.1 (i64_of_u128 addend))
      | GlobalAlloc.static d =>
        match data_id_for_static env m d Linkage.import_ with
        | Except.ok (dataId, m') =>
          processRelocs env alloc rest todo m'
            (ctx.writeDataAddr offset dataId (i64_of_u128 addend))
        | Except.error e => Except.error e
    else
      Except.error (FatalError.panicked ("slice index out of range"))

/-- The tail of one loop iteration after the data id and allocation are
obtained: skip when the id is in done, otherwise build the padded byte
buffer, process the relocations, define the data object and mark it
done. -/
def defineAlloc (env : Env) (dataId : DataId) (alloc : Allocation)
    (s : LoopState) : Except FatalError LoopState :=
  if dataId ∈ s.done then Except.ok s
  else
    let bytes := padTo16 alloc.bytes
    let ctx := DataContext.new.defineBytes bytes
    match processRelocs env alloc alloc.relocations s.todo s.module ctx with
    | Except.error e => Except.error e
    | Except.ok (todo', m', ctx') =>
      match defineData m' dataId ctx' with
      | (Except.ok _, m'') =>
        Except.ok { todo := todo', done := s.done ++ [dataId], module := m'' }
      | (Except.error _, _) => Except.error (FatalError.panicked ("define_data failed"))

/-- One iteration of the define_all_allocs loop on a popped item (the
state s already has the item removed from todo): foreign statics are
skipped; statics evaluate their initializer and resolve their id with
Export or Local linkage; allocations fetch the allocation and resolve
with data_id_for_alloc_id. -/
def processTodoItem (env : Env) (item : TodoItem) (s : LoopState) :
    Except FatalError LoopState :=
  match item with
  | TodoItem.alloc allocId =>
    let alloc := env.memory allocId
    let declared := data_id_for_alloc_id s.module allocId alloc.align
    defineAlloc env declared.1 alloc { s with module := declared.2 }
  | TodoItem.static d =>
    if env.isForeignItem d then Except.ok s
    else
      let alloc := env.staticAlloc d
      match data_id_for_static env s.module d
          (if env.isReachableNonGeneric d then Linkage.export_ else Linkage.local_) with
      | Except.ok (dataId, m') => defineAlloc env dataId alloc { s with module := m' }
      | Except.error e => Except.error e

/-- The define_all_allocs worklist loop.  pop_set is modelled by
popping the head of the todo list (the hash set's iteration order is
unspecified; this is one admissible order).  The loop itself is
unbounded in the source; the fuel argument makes it a total function,
and the termination theorems exhibit sufficient fuel. -/
def define_all_allocs (env : Env) : Nat → LoopState → Except FatalError LoopState
  | 0, s => Except.ok s
  | Nat.succ n, s =>
    match s.todo with
    | [] => Except.ok s
    | item :: rest =>
      match processTodoItem env item { s with todo := rest } with
      | Except.ok s' => define_all_allocs env n s'
      | Except.error e => Except.error e

/-- The Memory-target successors of an allocation's relocation list:
exactly the items the loop pushes back onto todo while processing it. -/
def memSuccsOf (env : Env) (rl : List (Nat × AllocId)) : List TodoItem :=
  rl.filterMap fun r =>
    match env.allocMap r.2 with
    | GlobalAlloc.memory => some (TodoItem.alloc r.2)
    | _ => none

/-- The allocation a todo item is built from. -/
def allocOf (env : Env) : TodoItem → Allocation
  | TodoItem.alloc a => env.memory a
  | TodoItem.static d => env.staticAlloc d

/-- Worklist successors of an item: none for foreign statics (they are
skipped), otherwise the Memory-target successors of its allocation. -/
def succs (env : Env) : TodoItem → List TodoItem
  | TodoItem.alloc a => memSuccsOf env (env.memory a).relocations
  | TodoItem.static d =>
    if env.isForeignItem d then [] else memSuccsOf env (env.staticAlloc d).relocations

/-- The symbol name a todo item's data object is declared under. -/
def itemName (env : Env) : TodoItem → String
  | TodoItem.alloc a => "__alloc_" ++ toString a
  | TodoItem.static d => env.symbolName d

/-- Whether a todo item is a foreign static (skipped by the loop). -/
def itemIsForeign (env : Env) : TodoItem → Bool
  | TodoItem.alloc _ => false
  | TodoItem.static d => env.isForeignItem d

/-- Items discovered by the worklist from the initial requests:
the initial items and, transitively, the Memory-relocation targets of
processed items. -/
inductive Reachable (env : Env) (init : List TodoItem) : TodoItem → Prop
  | base {i : TodoItem} : i ∈ init → Reachable env init i
  | step {i j : TodoItem} : Reachable env init i → j ∈ succs env i → Reachable env init j

/-- Well-formedness of one relocation of an allocation: the
pointer-width read at its offset stays in bounds, and a Function target
carries a zero addend (the assert in the source). -/
def relocOk (env : Env) (alloc : Allocation) (r : Nat × AllocId) : Prop :=
  r.1 + env.ptrSize ≤ alloc.bytes.length ∧
  match env.allocMap r.2 with
  | GlobalAlloc.function _ =>
    read_target_uint env.endian ((alloc.bytes.drop r.1).take env.ptrSize) = 0
  | GlobalAlloc.memory => True
  | GlobalAlloc.static d => env.staticAlignPref d ≤ 255

/-- Well-formedness of all relocations of an allocation. -/
def relocsOk (env : Env) (alloc : Allocation) : Prop :=
  ∀ r ∈ alloc.relocations, relocOk env alloc r

/-- N requests to materialize the same constant (each request is one
trans_const_place call, which pushes the allocation onto todo). -/
def requestConstN (env : Env) (c : MirConst) :
    Nat → ModuleState → List TodoItem → ModuleState × List TodoItem
  | 0, m, todo => (m, todo)
  | Nat.succ k, m, todo =>
    match trans_const_place env m todo c with
    | some (_, m', todo') => requestConstN env c k m' todo'
    | none => (m, todo)

/-- The data-address relocation entries processRelocs emits for a
relocation list: one entry per Memory or Static target, at the
relocation's offset, against the target's symbol, with the addend read
back from the buffer and cast to i64; Function targets emit none. -/
def relocEntries (env : Env) (alloc : Allocation) (rl : List (Nat × AllocId)) :
    List (Nat × DataId × Int) :=
  rl.filterMap fun r =>
    match env.allocMap r.2 with
    | GlobalAlloc.function _ => none
    | GlobalAlloc.memory =>
      some (r.1, "__alloc_" ++ toString r.2,
        i64_of_u128 (read_target_uint env.endian ((alloc.bytes.drop r.1).take env.ptrSize)))
    | GlobalAlloc.static d =>
      some (r.1, env.symbolName d,
        i64_of_u128 (read_target_uint env.endian ((alloc.bytes.drop r.1).take env.ptrSize)))

/-- Number of data-object names of the universe U not yet done: the
primary component of the loop's termination measure. -/
def undoneNames (env : Env) (U : List TodoItem) (done : List DataId) : Nat :=
  ((U.map (itemName env)).toFinset.filter (fun x => x ∉ done)).card

/-- Termination measure of the worklist loop: lexicographic pair
(undone names, todo length), flattened. -/
def loopMeasure (env : Env) (U : List TodoItem) (s : LoopState) : Nat :=
  undoneNames env U s.done * (U.length + 1) + s.todo.length

/-- The invariant maintained by the define_all_allocs loop, relative to
a finite universe U (closed under successors) and the initial todo
contents todo0. -/
structure LoopInv (env : Env) (U todo0 : List TodoItem) (s : LoopState) : Prop where
  todoU : ∀ i ∈ s.todo, i ∈ U
  todoNodup : s.todo.Nodup
  defsDone : s.module.defs.map DataDef.id = s.done
  callsDone : s.module.defineCalls = s.done
  doneNodup : s.done.Nodup
  doneU : ∀ x ∈ s.done, ∃ i ∈ U, itemName env i = x
  initInv : ∀ i ∈ todo0, itemIsForeign env i = false →
    i ∈ s.todo ∨ itemName env i ∈ s.done
  doneSuccs : ∀ i ∈ U, itemName env i ∈ s.done →
    ∀ j ∈ succs env i, j ∈ s.todo ∨ itemName env j ∈ s.done

/-- A fresh module with no declarations or definitions. -/
def emptyModule : ModuleState :=
  { declareCalls := [], declared := [], defs := [], defineCalls := [], funcs := [] }

/-- Allocation constructor helper for concrete instances. -/
def sampleAlloc (bs : List Nat) (rl : List (Nat × AllocId)) : Allocation :=
  { bytes := bs, align := 8, relocations := rl }

/-- A concrete environment used to instantiate the theorems: two
memory allocations forming a mutual cycle (0 → 1 → 0), allocation 1
storing addend 1 at offset 0, and statics whose type is a raw pointer
exactly for definition id 0. -/
def sampleEnv : Env :=
  { ptrSize := 8
    endian := Endian.little
    memory := fun a =>
      if a = 0 then sampleAlloc (List.replicate 16 0) [(0, 1)]
      else if a = 1 then sampleAlloc [1, 0, 0, 0, 0, 0, 0, 0] [(0, 0)]
      else sampleAlloc [] []
    allocMap := fun _ => GlobalAlloc.memory
    isForeignItem := fun _ => false
    staticAlloc := fun _ => sampleAlloc [] []
    symbolName := fun d => "static_sym_" ++ toString d
    isReachableNonGeneric := fun _ => false
    isMutableStatic := fun _ => false
    isFreeze := fun _ => true
    staticAlignPref := fun _ => 8
    staticTyIsRawPtr := fun d => d == 0
    evalPlaceAlloc := fun _ => 0 }

/-- The definitions present in the module after a data_id_for_static
call (empty when the call fails). -/
def staticDefsAfter (env : Env) (m : ModuleState) (d : DefId) (lk : Linkage) :
    List DataDef :=
  match data_id_for_static env m d lk with
  | Except.ok r => r.2.defs
  | Except.error _ => []

/-- The state after a successful defineAlloc (identity on failure);
used to name concrete final states in instantiations. -/
def defineAllocResult (env : Env) (dataId : DataId) (alloc : Allocation)
    (s : LoopState) : LoopState :=
  match defineAlloc env dataId alloc s with
  | Except.ok s' => s'
  | Except.error _ => s

theorem padTo16_eq (b : List Nat) :
    padTo16 b = b ++ List.replicate ((16 - b.length % 16) % 16) (0xde) := by
  suffices h : ∀ k b, (16 - List.length b % 16) % 16 = k →
      padTo16 b = b ++ List.replicate ((16 - List.length b % 16) % 16) (0xde) from
    h _ b rfl
  intro k
  induction k using Nat.strong_induction_on with
  | _ k ih =>
    intro b hk
    rw [padTo16]
    by_cases h : b.length % 16 = 0
    · rw [if_pos h]
      simp [h]
    · rw [if_neg h]
      have hlen : (b ++ [0xde]).length = b.length + 1 := by simp
      have hk1 : (16 - (b ++ [0xde]).length % 16) % 16 = k - 1 := by
        rw [hlen]; omega
      have hlt : k - 1 < k := by omega
      rw [ih (k - 1) hlt (b ++ [0xde]) hk1, hk1, hk, List.append_assoc]
      congr 1
      have hks : k = (k - 1) + 1 := by omega
      rw [hks]
      simp [List.replicate_succ]

theorem padTo16_length_mod (b : List Nat) : (padTo16 b).length % 16 = 0 := by
  rw [padTo16_eq]
  simp only [List.length_append, List.length_replicate]
  omega

theorem mem_insertTodo (i j : TodoItem) (l : List TodoItem) :
    j ∈ insertTodo i l ↔ j ∈ l ∨ j = i := by
  unfold insertTodo
  by_cases h : i ∈ l
  · rw [if_pos h]
    constructor
    · exact Or.inl
    · rintro (hj | rfl)
      · exact hj
      · exact h
  · rw [if_neg h]
    simp

theorem insertTodo_nodup (i : TodoItem) (l : List TodoItem) (h : l.Nodup) :
    (insertTodo i l).Nodup := by
  unfold insertTodo
  by_cases hm : i ∈ l
  · rw [if_pos hm]
    exact h
  · rw [if_neg hm]
    simp [List.nodup_append, h, hm]

theorem declareData_defs (m : ModuleState) (name : DataId) (lk : Linkage)
    (w : Bool) (al : Option Nat) :
    (declareData m name lk w al).2.defs = m.defs ∧
    (declareData m name lk w al).2.defineCalls = m.defineCalls ∧
    (declareData m name lk w al).1 = name :=
  ⟨rfl, rfl, rfl⟩

theorem data_id_for_static_nonpre (env : Env) (m : ModuleState) (d : DefId)
    (lk : Linkage) (hlk : lk ≠ Linkage.preemptible)
    (ha : env.staticAlignPref d ≤ 255) :
    ∃ m', data_id_for_static env m d lk = Except.ok (env.symbolName d, m') ∧
      m'.defs = m.defs ∧ m'.defineCalls = m.defineCalls := by
  refine ⟨(declareData m (env.symbolName d) lk
      (if env.isMutableStatic d then true else !(env.isFreeze d))
      (some (env.staticAlignPref d))).2, ?_, rfl, rfl⟩
  simp only [data_id_for_static]
  rw [if_pos ha, if_neg hlk]
  rfl

theorem processRelocs_spec (env : Env) (alloc : Allocation) :
    ∀ (rl : List (Nat × AllocId)) (todo : List TodoItem) (m : ModuleState)
      (ctx : DataContext), (∀ r ∈ rl, relocOk env alloc r) →
    ∃ todo' m' ctx',
      processRelocs env alloc rl todo m ctx = Except.ok (todo', m', ctx') ∧
      m'.defs = m.defs ∧ m'.defineCalls = m.defineCalls ∧
      ctx'.bytes = ctx.bytes ∧
      ctx'.dataRelocs = ctx.dataRelocs ++ relocEntries env alloc rl ∧
      (∀ j, j ∈ todo' ↔ (j ∈ todo ∨ j ∈ memSuccsOf env rl)) ∧
      (todo.Nodup → todo'.Nodup) := by
  intro rl
  induction rl with
  | nil =>
    intro todo m ctx _
    exact ⟨todo, m, ctx, rfl, rfl, rfl, rfl, by simp [relocEntries],
      by simp [memSuccsOf], fun h => h⟩
  | cons r rest ih =>
    intro todo m ctx hok
    obtain ⟨offset, reloc⟩ := r
    have hr := hok (offset, reloc) (by simp)
    have hrest : ∀ x ∈ rest, relocOk env alloc x := fun x hx =>
      hok x (List.mem_cons_of_mem _ hx)
    obtain ⟨hrange, hmatch⟩ := hr
    rw [processRelocs, if_pos hrange]
    cases hm : env.allocMap reloc with
    | function inst =>
      simp only [hm] at hmatch ⊢
      rw [if_pos hmatch]
      obtain ⟨todo', m', ctx', heq, hdefs, hcalls, hbytes, hrel, hmem, hnd⟩ :=
        ih todo (importFunction m inst).2 (ctx.writeFunctionAddr offset (importFunction m inst).1) hrest
      refine ⟨todo', m', ctx', heq, hdefs, hcalls, hbytes, ?_, ?_, hnd⟩
      · rw [hrel]
        simp [relocEntries, List.filterMap_cons, hm, DataContext.writeFunctionAddr]
      · intro j
        rw [hmem j]
        simp [memSuccsOf, List.filterMap_cons, hm]
    | memory =>
      simp only [hm] at hmatch ⊢
      obtain ⟨todo', m', ctx', heq, hdefs, hcalls, hbytes, hrel, hmem, hnd⟩ :=
        ih (insertTodo (TodoItem.alloc reloc) todo)
          (data_id_for_alloc_id m reloc alloc.align).2
          (ctx.writeDataAddr offset (data_id_for_alloc_id m reloc alloc.align).1
            (i64_of_u128 (read_target_uint env.endian
              ((alloc.bytes.drop offset).take env.ptrSize)))) hrest
      refine ⟨todo', m', ctx', heq, hdefs, hcalls, hbytes, ?_, ?_,
        fun h => hnd (insertTodo_nodup _ _ h)⟩
      · rw [hrel]
        simp [relocEntries, List.filterMap_cons, hm, DataContext.writeDataAddr,
          data_id_for_alloc_id, declareData]
      · intro j
        rw [hmem j, mem_insertTodo]
        simp only [memSuccsOf, List.filterMap_cons, hm]
        constructor
        · rintro ((hj | rfl) | hj)
          · exact Or.inl hj
          · exact Or.inr (List.mem_cons_self _ _)
          · exact Or.inr (List.mem_cons_of_mem _ hj)
        · rintro (hj | hj)
          · exact Or.inl (Or.inl hj)
          · rcases List.mem_cons.mp hj with rfl | hj
            · exact Or.inl (Or.inr rfl)
            · exact Or.inr hj
    | static d =>
      simp only [hm] at hmatch ⊢
      obtain ⟨ms, hms, hmsdefs, hmscalls⟩ :=
        data_id_for_static_nonpre env m d Linkage.import_ (by simp) hmatch
      rw [hms]
      obtain ⟨todo', m', ctx', heq, hdefs, hcalls, hbytes, hrel, hmem, hnd⟩ :=
        ih todo ms
          (ctx.writeDataAddr offset (env.symbolName d)
            (i64_of_u128 (read_target_uint env.endian
              ((alloc.bytes.drop offset).take env.ptrSize)))) hrest
      refine ⟨todo', m', ctx', heq, by rw [hdefs, hmsdefs], by rw [hcalls, hmscalls],
        hbytes, ?_, ?_, hnd⟩
      · rw [hrel]
        simp [relocEntries, List.filterMap_cons, hm, DataContext.writeDataAddr]
      · intro j
        rw [hmem j]
        simp [memSuccsOf, List.filterMap_cons, hm]

theorem data_id_for_static_ok_nonpre (env : Env) (m : ModuleState) (d : DefId)
    (lk : Linkage) (x : DataId) (m' : ModuleState)
    (hlk : lk ≠ Linkage.preemptible)
    (h : data_id_for_static env m d lk = Except.ok (x, m')) :
    x = env.symbolName d ∧ m'.defs = m.defs ∧ m'.defineCalls = m.defineCalls := by
  simp only [data_id_for_static] at h
  by_cases ha : env.staticAlignPref d ≤ 255
  · rw [if_pos ha, if_neg hlk] at h
    cases h
    exact ⟨rfl, rfl, rfl⟩
  · rw [if_neg ha] at h
    cases h

theorem processRelocs_preserves (env : Env) (alloc : Allocation) :
    ∀ (rl : List (Nat × AllocId)) (todo : List TodoItem) (m : ModuleState)
      (ctx : DataContext) (todo' : List TodoItem) (m' : ModuleState)
      (ctx' : DataContext),
      processRelocs env alloc rl todo m ctx = Except.ok (todo', m', ctx') →
      ctx'.bytes = ctx.bytes ∧ m'.defs = m.defs ∧ m'.defineCalls = m.defineCalls := by
  intro rl
  induction rl with
  | nil =>
    intro todo m ctx todo' m' ctx' h
    cases h
    exact ⟨rfl, rfl, rfl⟩
  | cons r rest ih =>
    intro todo m ctx todo' m' ctx' h
    obtain ⟨offset, reloc⟩ := r
    rw [processRelocs] at h
    by_cases hrange : offset + env.ptrSize ≤ alloc.bytes.length
    · rw [if_pos hrange] at h
      cases hm : env.allocMap reloc with
      | function inst =>
        rw [hm] at h
        simp only [] at h
        by_cases ha : read_target_uint env.endian
            ((alloc.bytes.drop offset).take env.ptrSize) = 0
        · rw [if_pos ha] at h
          obtain ⟨hb, hd, hc⟩ := ih _ _ _ _ _ _ h
          exact ⟨hb, hd, hc⟩
        · rw [if_neg ha] at h
          cases h
      | memory =>
        rw [hm] at h
        simp only [] at h
        obtain ⟨hb, hd, hc⟩ := ih _ _ _ _ _ _ h
        exact ⟨hb, hd, hc⟩
      | static d =>
        rw [hm] at h
        simp only [] at h
        cases hs : data_id_for_static env m d Linkage.import_ with
        | ok p =>
          obtain ⟨dataId, ms⟩ := p
          rw [hs] at h
          obtain ⟨-, hdefs, hcalls⟩ :=
            data_id_for_static_ok_nonpre env m d Linkage.import_ dataId ms (by simp) hs
          obtain ⟨hb, hd, hc⟩ := ih _ _ _ _ _ _ h
          exact ⟨hb, by rw [hd, hdefs], by rw [hc, hcalls]⟩
        | error e =>
          rw [hs] at h
          cases h
    · rw [if_neg hrange] at h
      cases h

theorem defineAlloc_skip (env : Env) (dataId : DataId) (alloc : Allocation)
    (s : LoopState) (h : dataId ∈ s.done) :
    defineAlloc env dataId alloc s = Except.ok s := by
  unfold defineAlloc
  rw [if_pos h]

theorem defineAlloc_spec (env : Env) (dataId : DataId) (alloc : Allocation)
    (s : LoopState) (hok : relocsOk env alloc) (hndone : dataId ∉ s.done)
    (hndef : dataId ∉ s.module.definedIds) :
    ∃ s', defineAlloc env dataId alloc s = Except.ok s' ∧
      s'.done = s.done ++ [dataId] ∧
      s'.module.defineCalls = s.module.defineCalls ++ [dataId] ∧
      (∃ fr, s'.module.defs = s.module.defs ++
        [{ id := dataId, bytes := padTo16 alloc.bytes,
           dataRelocs := relocEntries env alloc alloc.relocations,
           funcRelocs := fr }]) ∧
      (∀ j, j ∈ s'.todo ↔ (j ∈ s.todo ∨ j ∈ memSuccsOf env alloc.relocations)) ∧
      (s.todo.Nodup → s'.todo.Nodup) := by
  obtain ⟨todo', m', ctx', heq, hdefs, hcalls, hbytes, hrel, hmem, hnd⟩ :=
    processRelocs_spec env alloc alloc.relocations s.todo s.module
      (DataContext.new.defineBytes (padTo16 alloc.bytes)) hok
  have hndef' : dataId ∉ m'.definedIds := by
    unfold ModuleState.definedIds at hndef ⊢
    rw [hdefs]
    exact hndef
  have hstep : defineAlloc env dataId alloc s =
      Except.ok { todo := todo', done := s.done ++ [dataId],
                  module := { m' with
                    defs := m'.defs ++ [{ id := dataId, bytes := ctx'.bytes,
                                          dataRelocs := ctx'.dataRelocs,
                                          funcRelocs := ctx'.funcRelocs }]
                    defineCalls := m'.defineCalls ++ [dataId] } } := by
    simp only [defineAlloc, hndone, ite_false, heq, defineData, hndef']
  refine ⟨_, hstep, rfl, ?_, ?_, hmem, hnd⟩
  · simp only [hcalls]
  · refine ⟨ctx'.funcRelocs, ?_⟩
    simp only [hdefs, hbytes, hrel]
    have hctxb : (DataContext.new.defineBytes (padTo16 alloc.bytes)).bytes =
        padTo16 alloc.bytes := rfl
    have hctxr : (DataContext.new.defineBytes (padTo16 alloc.bytes)).dataRelocs =
        [] := rfl
    rw [hctxb, hctxr]
    simp

/-- Claim C10: the fixed filler byte is 0xDE (222): padding appends
exactly (16 - len mod 16) mod 16 copies of 0xDE, every appended byte is
0xDE, and a buffer whose length is already a multiple of 16 (including
the empty buffer) receives no padding at all. -/
theorem padding_filler_byte (b : List Nat) :
    padTo16 b = b ++ List.replicate ((16 - b.length % 16) % 16) (0xde) ∧
    (∀ x ∈ List.replicate ((16 - b.length % 16) % 16) (0xde : Nat), x = 0xde) ∧
    (b.length % 16 = 0 → padTo16 b = b) := by
  refine ⟨padTo16_eq b, ?_, ?_⟩
  · intro x hx
    exact List.eq_of_mem_replicate hx
  · intro h
    rw [padTo16_eq, h]
    simp

theorem padding_filler_byte_witness :
    padTo16 [1, 2, 3] = [1, 2, 3] ++ List.replicate 13 (0xde) ∧
    padTo16 [] = [] ∧ padTo16 (List.replicate 16 5) = List.replicate 16 5 := by
  refine ⟨?_, (padding_filler_byte []).2.2 (by decide),
    (padding_filler_byte (List.replicate 16 5)).2.2 (by decide)⟩
  have h := (padding_filler_byte [1, 2, 3]).1
  simpa using h

/-- Claim C8 as stated is false: data_id_for_static defines the weak
pointer-width default body (8 bytes here) without padding, so not every
defined data object has a byte length that is a multiple of 16. -/
theorem padding_claim_counterexample :
    ∃ dd ∈ staticDefsAfter sampleEnv emptyModule 0 Linkage.preemptible,
      dd.bytes.length % 16 ≠ 0 := by
  decide

/-- Claim C8 (amended): every data object defined by the Data Object
Builder (the worklist's defineAlloc path) has a byte length that is a
multiple of 16, obtained by copying the allocation's raw bytes and
right-padding with the filler byte; the weak-static default body
defined by data_id_for_static is exempt (it has pointer width). -/
theorem data_object_builder_pads_to_16 (env : Env) (dataId : DataId)
    (alloc : Allocation) (s s' : LoopState)
    (h : defineAlloc env dataId alloc s = Except.ok s') :
    ∀ dd ∈ s'.module.defs, dd ∈ s.module.defs ∨
      (dd.bytes = padTo16 alloc.bytes ∧ dd.bytes.length % 16 = 0 ∧
       ∃ k, dd.bytes = alloc.bytes ++ List.replicate k (0xde)) := by
  intro dd hdd
  unfold defineAlloc at h
  by_cases hdone : dataId ∈ s.done
  · rw [if_pos hdone] at h
    cases h
    exact Or.inl hdd
  · rw [if_neg hdone] at h
    simp only [] at h
    cases hp : processRelocs env alloc alloc.relocations s.todo s.module
        (DataContext.new.defineBytes (padTo16 alloc.bytes)) with
    | error e =>
      rw [hp] at h
      cases h
    | ok t =>
      obtain ⟨todo', m', ctx'⟩ := t
      rw [hp] at h
      simp only [] at h
      obtain ⟨hbytes, hdefs, -⟩ := processRelocs_preserves env alloc _ _ _ _ _ _ _ hp
      unfold defineData at h
      by_cases hdef : dataId ∈ m'.definedIds
      · rw [if_pos hdef] at h
        simp only [] at h
        cases h
      · rw [if_neg hdef] at h
        simp only [] at h
        cases h
        simp only [hdefs, List.mem_append, List.mem_singleton] at hdd
        rcases hdd with hdd | rfl
        · exact Or.inl hdd
        · refine Or.inr ⟨hbytes, ?_, ?_⟩
          · rw [hbytes]
            exact padTo16_length_mod alloc.bytes
          · rw [hbytes, padTo16_eq]
            exact ⟨_, rfl⟩

theorem data_object_builder_pads_witness :
    defineAlloc sampleEnv ("padx") (sampleAlloc [7] []) ⟨[], [], emptyModule⟩ =
      Except.ok (defineAllocResult sampleEnv ("padx") (sampleAlloc [7] [])
        ⟨[], [], emptyModule⟩) ∧
    ∀ dd ∈ (defineAllocResult sampleEnv ("padx") (sampleAlloc [7] [])
        ⟨[], [], emptyModule⟩).module.defs,
      dd ∈ emptyModule.defs ∨
      (dd.bytes = padTo16 [7] ∧ dd.bytes.length % 16 = 0 ∧
       ∃ k, dd.bytes = [7] ++ List.replicate k (0xde)) := by
  refine ⟨rfl, ?_⟩
  exact data_object_builder_pads_to_16 sampleEnv ("padx") (sampleAlloc [7] [])
    ⟨[], [], emptyModule⟩ _ rfl

theorem data_id_for_static_pre_core (env : Env) (m : ModuleState) (d : DefId)
    (ha : env.staticAlignPref d ≤ 255) (hptr : env.staticTyIsRawPtr d = true) :
    (env.symbolName d ∉ m.definedIds →
      ∃ m', data_id_for_static env m d Linkage.preemptible =
          Except.ok (env.symbolName d, m') ∧
        m'.defs = m.defs ++ [{ id := env.symbolName d,
                               bytes := List.replicate env.ptrSize 0,
                               dataRelocs := [], funcRelocs := [] }] ∧
        m'.defineCalls = m.defineCalls ++ [env.symbolName d]) ∧
    (env.symbolName d ∈ m.definedIds →
      ∃ m', data_id_for_static env m d Linkage.preemptible =
          Except.ok (env.symbolName d, m') ∧
        m'.defs = m.defs ∧
        m'.defineCalls = m.defineCalls ++ [env.symbolName d]) := by
  have hids : (declareData m (env.symbolName d) Linkage.preemptible
      (if env.isMutableStatic d then true else !(env.isFreeze d))
      (some (env.staticAlignPref d))).2.definedIds = m.definedIds := rfl
  have hkey : data_id_for_static env m d Linkage.preemptible =
      Except.ok (env.symbolName d,
        (defineData (declareData m (env.symbolName d) Linkage.preemptible
            (if env.isMutableStatic d then true else !(env.isFreeze d))
            (some (env.staticAlignPref d))).2
          (env.symbolName d)
          (DataContext.new.defineBytes (List.replicate env.ptrSize 0))).2) := by
    by_cases hf : env.symbolName d ∈ List.map DataDef.id m.defs
    · simp [data_id_for_static, ha, hptr, declareData, defineData,
        ModuleState.definedIds, handleWeakDefineResult, hf]
    · simp [data_id_for_static, ha, hptr, declareData, defineData,
        ModuleState.definedIds, handleWeakDefineResult, hf]
  constructor
  · intro hfresh
    have hfresh' : env.symbolName d ∉ List.map DataDef.id m.defs := hfresh
    refine ⟨_, hkey, ?_, ?_⟩
    · simp [declareData, defineData, ModuleState.definedIds, hfresh',
        DataContext.new, DataContext.defineBytes]
    · simp [declareData, defineData, ModuleState.definedIds, hfresh']
  · intro hdup
    have hdup' : env.symbolName d ∈ List.map DataDef.id m.defs := hdup
    refine ⟨_, hkey, ?_, ?_⟩
    · simp [declareData, defineData, ModuleState.definedIds, hdup']
    · simp [declareData, defineData, ModuleState.definedIds, hdup']

/-- Claim C5: resolving a static with the preemptible (weak) linkage
class: if the static's type is not a raw pointer, the call fails with
the user-facing fatal diagnostic at the static's definition site; if it
is a raw pointer, the symbol is defined immediately (within this call,
not deferred to the worklist) with a zero-filled pointer-width buffer. -/
theorem weak_static_type_guard (env : Env) (m : ModuleState) (d : DefId)
    (ha : env.staticAlignPref d ≤ 255) :
    (env.staticTyIsRawPtr d = false →
      data_id_for_static env m d Linkage.preemptible =
        Except.error (FatalError.spanFatal d
          ("must have type `*const T` or `*mut T` due to `#[linkage]` attribute"))) ∧
    (env.staticTyIsRawPtr d = true → env.symbolName d ∉ m.definedIds →
      ∃ m', data_id_for_static env m d Linkage.preemptible =
          Except.ok (env.symbolName d, m') ∧
        ∃ dd ∈ m'.defs, dd.id = env.symbolName d ∧
          dd.bytes = List.replicate env.ptrSize 0) := by
  constructor
  · intro hptr
    simp only [data_id_for_static, if_pos ha, if_pos rfl, hptr]
    rfl
  · intro hptr hfresh
    obtain ⟨m', hcall, hdefs, -⟩ :=
      (data_id_for_static_pre_core env m d ha hptr).1 hfresh
    refine ⟨m', hcall, ?_⟩
    refine ⟨{ id := env.symbolName d, bytes := List.replicate env.ptrSize 0,
              dataRelocs := [], funcRelocs := [] }, ?_, rfl, rfl⟩
    rw [hdefs]
    simp

theorem weak_static_type_guard_witness :
    (data_id_for_static sampleEnv emptyModule 1 Linkage.preemptible =
      Except.error (FatalError.spanFatal 1
        ("must have type `*const T` or `*mut T` due to `#[linkage]` attribute"))) ∧
    ∃ m', data_id_for_static sampleEnv emptyModule 0 Linkage.preemptible =
        Except.ok (sampleEnv.symbolName 0, m') ∧
      ∃ dd ∈ m'.defs, dd.id = sampleEnv.symbolName 0 ∧
        dd.bytes = List.replicate sampleEnv.ptrSize 0 := by
  constructor
  · exact (weak_static_type_guard sampleEnv emptyModule 1 (by decide)).1 (by decide)
  · exact (weak_static_type_guard sampleEnv emptyModule 0 (by decide)).2
      (by decide) (by decide)

/-- Claim C6: resolving the same preemptible pointer-typed static from
two independent call paths yields exactly one observable definition:
the first call defines the zero default body, the second call's
define_data reports DuplicateDefinition, which is caught, discarded and
treated as success (defs unchanged), while every other define_data
error is not tolerated (the handler propagates it as a panic). -/
theorem weak_static_dual_declaration (env : Env) (m0 : ModuleState) (d : DefId)
    (ha : env.staticAlignPref d ≤ 255)
    (hptr : env.staticTyIsRawPtr d = true)
    (hfresh : env.symbolName d ∉ m0.definedIds) :
    ∃ m1 m2,
      data_id_for_static env m0 d Linkage.preemptible =
        Except.ok (env.symbolName d, m1) ∧
      data_id_for_static env m1 d Linkage.preemptible =
        Except.ok (env.symbolName d, m2) ∧
      m1.defs = m0.defs ++ [{ id := env.symbolName d,
                              bytes := List.replicate env.ptrSize 0,
                              dataRelocs := [], funcRelocs := [] }] ∧
      m2.defs = m1.defs ∧
      m2.defineCalls = (m0.defineCalls ++ [env.symbolName d]) ++ [env.symbolName d] ∧
      (∀ msg, handleWeakDefineResult (Except.error (ModuleError.other msg)) = none) ∧
      (∀ i, handleWeakDefineResult
        (Except.error (ModuleError.duplicateDefinition i)) = some ()) := by
  obtain ⟨m1, hcall1, hdefs1, hcalls1⟩ :=
    (data_id_for_static_pre_core env m0 d ha hptr).1 hfresh
  have hdup : env.symbolName d ∈ m1.definedIds := by
    unfold ModuleState.definedIds
    rw [hdefs1]
    simp
  obtain ⟨m2, hcall2, hdefs2, hcalls2⟩ :=
    (data_id_for_static_pre_core env m1 d ha hptr).2 hdup
  refine ⟨m1, m2, hcall1, hcall2, hdefs1, hdefs2, ?_, fun msg => rfl, fun i => rfl⟩
  rw [hcalls2, hcalls1]

theorem weak_static_dual_declaration_witness :
    ∃ m1 m2,
      data_id_for_static sampleEnv emptyModule 0 Linkage.preemptible =
        Except.ok (sampleEnv.symbolName 0, m1) ∧
      data_id_for_static sampleEnv m1 0 Linkage.preemptible =
        Except.ok (sampleEnv.symbolName 0, m2) ∧
      m1.defs = emptyModule.defs ++ [{ id := sampleEnv.symbolName 0,
                                       bytes := List.replicate sampleEnv.ptrSize 0,
                                       dataRelocs := [], funcRelocs := [] }] ∧
      m2.defs = m1.defs ∧
      m2.defineCalls =
        (emptyModule.defineCalls ++ [sampleEnv.symbolName 0]) ++ [sampleEnv.symbolName 0] ∧
      (∀ msg, handleWeakDefineResult (Except.error (ModuleError.other msg)) = none) ∧
      (∀ i, handleWeakDefineResult
        (Except.error (ModuleError.duplicateDefinition i)) = some ()) :=
  weak_static_dual_declaration sampleEnv emptyModule 0 (by decide) (by decide)
    (by decide)

/-- Claim C4: a constant whose type is a function item produces the
sentinel value: by_ref of an iconst whose value equals the pointer
width in bytes (non-null for any positive pointer width), and the
module is returned untouched — no declare_data or define_data call, so
no data object is ever created for it. -/
theorem fn_item_sentinel (env : Env) (m : ModuleState) (todo : List TodoItem)
    (c : MirConst) (hty : c.ty = TyKind.fnDef) (hp : 0 < env.ptrSize) :
    trans_const_value env m todo c =
      some (CValue.byRefIconst env.ptrSize, m, todo) ∧ env.ptrSize ≠ 0 := by
  constructor
  · simp [trans_const_value, hty]
  · omega

theorem fn_item_sentinel_witness :
    trans_const_value sampleEnv emptyModule []
        { ty := TyKind.fnDef, val := ConstVal.byRef } =
      some (CValue.byRefIconst 8, emptyModule, []) ∧ (8 : Nat) ≠ 0 :=
  fn_item_sentinel sampleEnv emptyModule []
    { ty := TyKind.fnDef, val := ConstVal.byRef } rfl (by decide)

/-- Claim C9: materializing a constant of boolean, fixed-width unsigned
or signed integer, or fixed-width float type produces an Immediate and
returns the module unchanged: no declare_data or define_data call is
made, so no data object is created for such constants. -/
theorem scalar_short_circuit (env : Env) (m : ModuleState) (todo : List TodoItem)
    (c : MirConst) (bits : Nat)
    (hty : c.ty.isScalarConst = true)
    (hval : c.val = ConstVal.scalar bits c.ty.size)
    (hbits : bits < 2 ^ (8 * c.ty.size)) :
    ∃ v, trans_const_value env m todo c = some (v, m, todo) ∧
      v.isImmediate = true := by
  obtain ⟨ty, val⟩ := c
  simp only at hval hbits hty
  subst hval
  cases ty with
  | bool =>
    exact ⟨CValue.constInt bits, by simp [trans_const_value, tryToBits, hbits], rfl⟩
  | uint s =>
    exact ⟨CValue.constInt bits, by simp [trans_const_value, tryToBits, hbits], rfl⟩
  | int s =>
    exact ⟨CValue.constInt (sign_extend bits (TyKind.int s).size),
      by simp [trans_const_value, tryToBits, hbits], rfl⟩
  | float f =>
    cases f with
    | f32 =>
      have h32 : bits < 4294967296 := by
        have h := hbits
        norm_num [TyKind.size] at h
        exact h
      exact ⟨CValue.constF32 bits,
        by simp [trans_const_value, tryToBits, hbits, h32], rfl⟩
    | f64 =>
      have h64 : bits < 18446744073709551616 := by
        have h := hbits
        norm_num [TyKind.size] at h
        exact h
      exact ⟨CValue.constF64 bits,
        by simp [trans_const_value, tryToBits, hbits, h64], rfl⟩
  | fnDef => simp [TyKind.isScalarConst] at hty
  | other => simp [TyKind.isScalarConst] at hty

theorem scalar_short_circuit_witness :
    ∃ v, trans_const_value sampleEnv emptyModule []
        { ty := TyKind.int 4, val := ConstVal.scalar 4294967295 4 } =
      some (v, emptyModule, []) ∧ v.isImmediate = true :=
  scalar_short_circuit sampleEnv emptyModule []
    { ty := TyKind.int 4, val := ConstVal.scalar 4294967295 4 } 4294967295
    rfl rfl (by norm_num [TyKind.size])

theorem sign_extend_mod (v w : Nat) (hw : 0 < w) (h128 : w * 8 ≤ 128)
    (hv : v < 2 ^ (w * 8)) :
    sign_extend v w % 2 ^ (w * 8) = v := by
  have hb0 : ¬ (w * 8 = 0) := by omega
  have hs128 : (w * 8) + (128 - w * 8) = 128 := by omega
  have hpow : (2 : Nat) ^ (w * 8) * 2 ^ (128 - w * 8) = 2 ^ 128 := by
    rw [← pow_add, hs128]
  have hspos : 0 < (2 : Nat) ^ (128 - w * 8) := Nat.pos_pow_of_pos _ (by omega)
  have hsne : ((2 : Int) ^ (128 - w * 8)) ≠ 0 := pow_ne_zero _ two_ne_zero
  have hsmall : v * 2 ^ (128 - w * 8) < 2 ^ 128 := by
    calc v * 2 ^ (128 - w * 8) < 2 ^ (w * 8) * 2 ^ (128 - w * 8) :=
          (Nat.mul_lt_mul_right hspos).mpr hv
      _ = 2 ^ 128 := hpow
  have hble : (2 : Nat) ^ (w * 8) ≤ 2 ^ 128 :=
    Nat.pow_le_pow_right (by omega) h128
  have hcast : ((v * 2 ^ (128 - w * 8) : Nat) : Int) =
      (v : Int) * 2 ^ (128 - w * 8) := by push_cast; ring
  simp only [sign_extend]
  rw [if_neg hb0]
  rw [Nat.mod_eq_of_lt hsmall]
  have hsplit : (2 : Nat) ^ (w * 8 - 1) * 2 ^ (128 - w * 8) = 2 ^ 127 := by
    rw [← pow_add]
    congr 1
    omega
  by_cases hneg : v < 2 ^ (w * 8 - 1)
  · have hlt127 : v * 2 ^ (128 - w * 8) < 2 ^ 127 := by
      calc v * 2 ^ (128 - w * 8) < 2 ^ (w * 8 - 1) * 2 ^ (128 - w * 8) :=
            (Nat.mul_lt_mul_right hspos).mpr hneg
        _ = 2 ^ 127 := hsplit
    rw [if_pos hlt127]
    rw [hcast, Int.mul_fdiv_cancel _ hsne]
    have hvlt : (v : Int) < 2 ^ 128 := by
      have h1 : (v : Int) < 2 ^ (w * 8) := by exact_mod_cast hv
      have h2 : (2 : Int) ^ (w * 8) ≤ 2 ^ 128 := by exact_mod_cast hble
      omega
    rw [Int.emod_eq_of_lt (Int.natCast_nonneg v) hvlt, Int.toNat_natCast]
    exact Nat.mod_eq_of_lt hv
  · have hge127 : ¬ (v * 2 ^ (128 - w * 8) < 2 ^ 127) := by
      push_neg at hneg ⊢
      calc (2 : Nat) ^ 127 = 2 ^ (w * 8 - 1) * 2 ^ (128 - w * 8) := hsplit.symm
        _ ≤ v * 2 ^ (128 - w * 8) := Nat.mul_le_mul_right _ hneg
    rw [if_neg hge127]
    have hpowZ : (2 : Int) ^ (w * 8) * 2 ^ (128 - w * 8) = 2 ^ 128 := by
      exact_mod_cast hpow
    have hsig : ((v * 2 ^ (128 - w * 8) : Nat) : Int) - 2 ^ 128 =
        ((v : Int) - 2 ^ (w * 8)) * 2 ^ (128 - w * 8) := by
      rw [hcast, ← hpowZ]
      ring
    rw [hsig, Int.mul_fdiv_cancel _ hsne]
    have hx1 : ((v + (2 ^ 128 - 2 ^ (w * 8)) : Nat) : Int) =
        (v : Int) - 2 ^ (w * 8) + 2 ^ 128 := by
      rw [Nat.cast_add, Nat.cast_sub hble]
      push_cast
      ring
    have hxmod : ((v : Int) - 2 ^ (w * 8)) % 2 ^ 128 =
        (v : Int) - 2 ^ (w * 8) + 2 ^ 128 := by
      have h1 : ((v : Int) - 2 ^ (w * 8)) % 2 ^ 128 =
          ((v : Int) - 2 ^ (w * 8) + 2 ^ 128 * 1) % 2 ^ 128 :=
        (Int.add_mul_emod_self_left _ _ _).symm
      rw [h1, mul_one]
      refine Int.emod_eq_of_lt ?_ ?_
      · have h0 : (0 : Int) ≤ (v : Int) := Int.natCast_nonneg v
        have h2 : (2 : Int) ^ (w * 8) ≤ 2 ^ 128 := by exact_mod_cast hble
        omega
      · have hvz : (v : Int) < 2 ^ (w * 8) := by exact_mod_cast hv
        have h2 : (0 : Int) < 2 ^ (w * 8) := by positivity
        omega
    rw [hxmod, ← hx1, Int.toNat_natCast]
    have hrw : (2 : Nat) ^ 128 - 2 ^ (w * 8) =
        2 ^ (w * 8) * (2 ^ (128 - w * 8) - 1) := by
      rw [Nat.mul_sub_one, hpow]
    rw [hrw, Nat.add_mul_mod_self_left]
    exact Nat.mod_eq_of_lt hv

/-- Claim C7: the immediate produced for a fixed-width signed integer
constant is the sign extension of its raw bits; for a negative constant
of value -n at width w bytes (raw pattern 2 ^ (8w) - n), the immediate
reinterpreted as unsigned at that width equals the two's-complement
encoding of its absolute value, 2 ^ (8w) - n (so 8-bit -1 gives 0xFF
and 32-bit -1 gives 0xFFFFFFFF). -/
theorem sign_extension_negative (env : Env) (m : ModuleState)
    (todo : List TodoItem) (w n : Nat) (c : MirConst)
    (hty : c.ty = TyKind.int w)
    (hval : c.val = ConstVal.scalar (2 ^ (w * 8) - n) w)
    (hw : 0 < w) (h128 : w * 8 ≤ 128)
    (hn1 : 0 < n) (_hn2 : n ≤ 2 ^ (w * 8 - 1)) :
    trans_const_value env m todo c =
      some (CValue.constInt (sign_extend (2 ^ (w * 8) - n) w), m, todo) ∧
    sign_extend (2 ^ (w * 8) - n) w % 2 ^ (w * 8) = 2 ^ (w * 8) - n := by
  have hpos : 0 < (2 : Nat) ^ (w * 8) := Nat.pos_pow_of_pos _ (by omega)
  have hv : 2 ^ (w * 8) - n < 2 ^ (w * 8) := by omega
  constructor
  · obtain ⟨ty, val⟩ := c
    simp only at hty hval
    subst hty
    subst hval
    have hv8 : 2 ^ (w * 8) - n < 2 ^ (8 * w) := by
      rw [Nat.mul_comm 8 w]
      exact hv
    simp [trans_const_value, tryToBits, TyKind.size, hv8]
  · exact sign_extend_mod _ w hw h128 hv

set_option maxRecDepth 8000 in
theorem sign_extension_negative_witness :
    (trans_const_value sampleEnv emptyModule []
        { ty := TyKind.int 1, val := ConstVal.scalar (2 ^ (1 * 8) - 1) 1 } =
      some (CValue.constInt (sign_extend (2 ^ (1 * 8) - 1) 1), emptyModule, []) ∧
     sign_extend (2 ^ (1 * 8) - 1) 1 % 2 ^ (1 * 8) = 2 ^ (1 * 8) - 1) ∧
    sign_extend 255 1 % 256 = 255 ∧
    sign_extend 4294967295 4 % 4294967296 = 4294967295 :=
  ⟨sign_extension_negative sampleEnv emptyModule [] 1 1
      { ty := TyKind.int 1, val := ConstVal.scalar (2 ^ (1 * 8) - 1) 1 }
      rfl rfl (by decide) (by decide) (by decide) (by decide),
    by decide, by decide⟩

theorem i64_of_u128_spec (X : Nat) :
    (i64_of_u128 X) % 2 ^ 64 = (X : Int) % 2 ^ 64 ∧
    (X < 2 ^ 63 → i64_of_u128 X = (X : Int)) := by
  constructor
  · simp only [i64_of_u128]
    by_cases h : X % 2 ^ 64 < 2 ^ 63
    · rw [if_pos h, Int.natCast_mod]
      push_cast
      rw [Int.emod_emod_of_dvd _ dvd_rfl]
    · rw [if_neg h, Int.natCast_mod]
      push_cast
      rw [Int.sub_emod, Int.emod_self, sub_zero,
        Int.emod_emod_of_dvd _ dvd_rfl, Int.emod_emod_of_dvd _ dvd_rfl]
  · intro h
    have hm : X % 2 ^ 64 = X := Nat.mod_eq_of_lt (by omega)
    simp only [i64_of_u128]
    rw [hm, if_pos h]

/-- Claim C1: while the Data Object Builder processes an allocation, a
relocation at byte offset O whose target B is a Memory allocation and
whose pointer-width bytes at O encode the unsigned integer X results
in: Alloc(B) present in the todo set afterwards (the insertion is a
no-op when already present), and an emitted data-address relocation
entry with offset O, addend recovered from the buffer (exactly X
whenever X fits in 63 bits, and congruent to X mod 2^64 in general as
an i64 cast), referencing the DataObjectId obtained from
data_id_for_alloc_id(B, align of B) — which depends only on B's
identity. -/
theorem reloc_roundtrip (env : Env) (s : LoopState) (dataId : DataId)
    (alloc : Allocation) (O : Nat) (B : AllocId) (X : Nat)
    (hndone : dataId ∉ s.done)
    (hndef : dataId ∉ s.module.definedIds)
    (hok : relocsOk env alloc)
    (hrel : (O, B) ∈ alloc.relocations)
    (hmem : env.allocMap B = GlobalAlloc.memory)
    (hX : read_target_uint env.endian ((alloc.bytes.drop O).take env.ptrSize) = X) :
    ∃ s', defineAlloc env dataId alloc s = Except.ok s' ∧
      TodoItem.alloc B ∈ s'.todo ∧
      (∀ l, TodoItem.alloc B ∈ l → insertTodo (TodoItem.alloc B) l = l) ∧
      (∃ dd ∈ s'.module.defs, dd.id = dataId ∧
        (O, (data_id_for_alloc_id s.module B (env.memory B).align).1,
          i64_of_u128 X) ∈ dd.dataRelocs) ∧
      (i64_of_u128 X) % 2 ^ 64 = (X : Int) % 2 ^ 64 ∧
      (X < 2 ^ 63 → i64_of_u128 X = (X : Int)) := by
  obtain ⟨s', hs', hdone, hcalls, ⟨fr, hdefs⟩, hmemtodo, hnd⟩ :=
    defineAlloc_spec env dataId alloc s hok hndone hndef
  have hBsucc : TodoItem.alloc B ∈ memSuccsOf env alloc.relocations := by
    rw [memSuccsOf, List.mem_filterMap]
    exact ⟨(O, B), hrel, by simp [hmem]⟩
  have hBtodo : TodoItem.alloc B ∈ s'.todo := (hmemtodo _).mpr (Or.inr hBsucc)
  have hida : (data_id_for_alloc_id s.module B (env.memory B).align).1 =
      "__alloc_" ++ toString B := rfl
  refine ⟨s', hs', hBtodo, ?_, ?_, (i64_of_u128_spec X).1, (i64_of_u128_spec X).2⟩
  · intro l hl
    unfold insertTodo
    rw [if_pos hl]
  · refine ⟨{ id := dataId, bytes := padTo16 alloc.bytes,
              dataRelocs := relocEntries env alloc alloc.relocations,
              funcRelocs := fr }, ?_, rfl, ?_⟩
    · rw [hdefs]
      simp
    · rw [hida]
      simp only [relocEntries, List.mem_filterMap]
      exact ⟨(O, B), hrel, by simp [hmem, hX]⟩

theorem reloc_roundtrip_witness :
    ∃ s', defineAlloc sampleEnv ("__alloc_1") (sampleEnv.memory 1)
        ⟨[], [], emptyModule⟩ = Except.ok s' ∧
      TodoItem.alloc 0 ∈ s'.todo ∧
      (∀ l, TodoItem.alloc 0 ∈ l → insertTodo (TodoItem.alloc 0) l = l) ∧
      (∃ dd ∈ s'.module.defs, dd.id = "__alloc_1" ∧
        (0, (data_id_for_alloc_id emptyModule 0 (sampleEnv.memory 0).align).1,
          i64_of_u128 1) ∈ dd.dataRelocs) ∧
      (i64_of_u128 1) % 2 ^ 64 = (1 : Int) % 2 ^ 64 ∧
      (1 < 2 ^ 63 → i64_of_u128 1 = (1 : Int)) :=
  reloc_roundtrip sampleEnv ⟨[], [], emptyModule⟩ ("__alloc_1")
    (sampleEnv.memory 1) 0 0 1 (by decide) (by decide)
    (by
      intro r hr
      have hrl : (sampleEnv.memory 1).relocations = [(0, 0)] := rfl
      rw [hrl] at hr
      have hr00 : r = (0, 0) := by simpa using hr
      subst hr00
      exact ⟨by decide, trivial⟩)
    (by decide) (by decide) (by decide)

theorem succs_alloc_only (env : Env) (i j : TodoItem) (h : j ∈ succs env i) :
    ∃ a, j = TodoItem.alloc a := by
  cases i with
  | alloc a =>
    simp only [succs, memSuccsOf, List.mem_filterMap] at h
    obtain ⟨r, -, hr⟩ := h
    cases hm : env.allocMap r.2 <;> rw [hm] at hr <;> simp at hr
    exact ⟨r.2, hr.symm⟩
  | static d =>
    simp only [succs] at h
    by_cases hf : env.isForeignItem d
    · rw [if_pos hf] at h
      simp at h
    · rw [if_neg hf] at h
      simp only [memSuccsOf, List.mem_filterMap] at h
      obtain ⟨r, -, hr⟩ := h
      cases hm : env.allocMap r.2 <;> rw [hm] at hr <;> simp at hr
      exact ⟨r.2, hr.symm⟩

theorem succs_not_foreign (env : Env) (i j : TodoItem) (h : j ∈ succs env i) :
    itemIsForeign env j = false := by
  obtain ⟨a, rfl⟩ := succs_alloc_only env i j h
  rfl

theorem succs_of_foreign (env : Env) (i : TodoItem)
    (h : itemIsForeign env i = true) : succs env i = [] := by
  cases i with
  | alloc a => simp [itemIsForeign] at h
  | static d =>
    simp only [itemIsForeign] at h
    simp [succs, h]

theorem reachable_in_U (env : Env) (U todo0 : List TodoItem)
    (hU0 : ∀ i ∈ todo0, i ∈ U)
    (hUc : ∀ i ∈ U, ∀ j ∈ succs env i, j ∈ U) :
    ∀ i, Reachable env todo0 i → i ∈ U := by
  intro i h
  induction h with
  | base hi => exact hU0 _ hi
  | step hreach hsucc ih => exact hUc _ ih _ hsucc

theorem memSuccsOf_eq_succs (env : Env) (item : TodoItem)
    (hnf : itemIsForeign env item = false) :
    memSuccsOf env (allocOf env item).relocations = succs env item := by
  cases item with
  | alloc a => rfl
  | static d =>
    simp only [itemIsForeign] at hnf
    simp [succs, allocOf, hnf]

theorem nodup_subset_length (l U : List TodoItem) (hnd : l.Nodup)
    (hsub : ∀ i ∈ l, i ∈ U) : l.length ≤ U.length := by
  calc l.length = l.toFinset.card := (List.toFinset_card_of_nodup hnd).symm
    _ ≤ U.toFinset.card := Finset.card_le_card (fun x hx => by
        simp only [List.mem_toFinset] at hx ⊢
        exact hsub x hx)
    _ ≤ U.length := List.toFinset_card_le U

theorem undoneNames_lt (env : Env) (U : List TodoItem) (done : List DataId)
    (x : DataId) (hx : x ∈ U.map (itemName env)) (hnx : x ∉ done) :
    undoneNames env U (done ++ [x]) < undoneNames env U done := by
  apply Finset.card_lt_card
  constructor
  · intro y hy
    simp only [Finset.mem_filter, List.mem_toFinset] at hy ⊢
    refine ⟨hy.1, ?_⟩
    have := hy.2
    simp only [List.mem_append, List.mem_singleton] at this
    intro hc
    exact this (Or.inl hc)
  · intro hsub
    have hxin : x ∈ (U.map (itemName env)).toFinset.filter (fun y => y ∉ done) := by
      simp only [Finset.mem_filter, List.mem_toFinset]
      exact ⟨hx, hnx⟩
    have := hsub hxin
    simp only [Finset.mem_filter, List.mem_toFinset] at this
    exact this.2 (by simp)

theorem loopMeasure_decrease_define (env : Env) (U : List TodoItem)
    (s s' : LoopState) (x : DataId)
    (hdone : s'.done = s.done ++ [x])
    (hx : x ∈ U.map (itemName env)) (hnx : x ∉ s.done)
    (hlen : s'.todo.length ≤ U.length) :
    loopMeasure env U s' < loopMeasure env U s := by
  unfold loopMeasure
  rw [hdone]
  have h1 : undoneNames env U (s.done ++ [x]) < undoneNames env U s.done :=
    undoneNames_lt env U s.done x hx hnx
  have h2 : s'.todo.length < U.length + 1 := by omega
  calc undoneNames env U (s.done ++ [x]) * (U.length + 1) + s'.todo.length
      < undoneNames env U (s.done ++ [x]) * (U.length + 1) + (U.length + 1) :=
        Nat.add_lt_add_left h2 _
    _ = (undoneNames env U (s.done ++ [x]) + 1) * (U.length + 1) := by ring
    _ ≤ undoneNames env U s.done * (U.length + 1) := by
        have h3 : undoneNames env U (s.done ++ [x]) + 1 ≤ undoneNames env U s.done := h1
        exact Nat.mul_le_mul_right _ h3
    _ ≤ undoneNames env U s.done * (U.length + 1) + s.todo.length :=
        Nat.le_add_right _ _

theorem loopMeasure_decrease_skip (env : Env) (U : List TodoItem)
    (s s' : LoopState) (item : TodoItem) (rest : List TodoItem)
    (htodo : s.todo = item :: rest)
    (hdone : s'.done = s.done) (htodo' : s'.todo = rest) :
    loopMeasure env U s' < loopMeasure env U s := by
  unfold loopMeasure
  rw [hdone, htodo', htodo]
  simp only [List.length_cons]
  omega

theorem skip_inv (env : Env) (U todo0 : List TodoItem) (s : LoopState)
    (item : TodoItem) (rest : List TodoItem) (htodo : s.todo = item :: rest)
    (hinv : LoopInv env U todo0 s)
    (hcase : itemIsForeign env item = true ∨ itemName env item ∈ s.done)
    (m₁ : ModuleState) (hdefs₁ : m₁.defs = s.module.defs)
    (hcalls₁ : m₁.defineCalls = s.module.defineCalls) :
    LoopInv env U todo0 { todo := rest, done := s.done, module := m₁ } := by
  constructor
  · intro i hi
    exact hinv.todoU i (by rw [htodo]; exact List.mem_cons_of_mem _ hi)
  · have h := hinv.todoNodup
    rw [htodo] at h
    exact (List.nodup_cons.mp h).2
  · show m₁.defs.map DataDef.id = s.done
    rw [hdefs₁]
    exact hinv.defsDone
  · show m₁.defineCalls = s.done
    rw [hcalls₁]
    exact hinv.callsDone
  · exact hinv.doneNodup
  · exact hinv.doneU
  · intro i hi hif
    rcases hinv.initInv i hi hif with hin | hdn
    · rw [htodo] at hin
      rcases List.mem_cons.mp hin with rfl | hin
      · rcases hcase with hc | hc
        · simp [hif] at hc
        · exact Or.inr hc
      · exact Or.inl hin
    · exact Or.inr hdn
  · intro i hiU hname j hj
    rcases hinv.doneSuccs i hiU hname j hj with hin | hdn
    · rw [htodo] at hin
      rcases List.mem_cons.mp hin with rfl | hin
      · rcases hcase with hc | hc
        · have h1 := succs_not_foreign env i _ hj
          simp [h1] at hc
        · exact Or.inr hc
      · exact Or.inl hin
    · exact Or.inr hdn

theorem defineAlloc_step_inv (env : Env) (U todo0 : List TodoItem)
    (hUc : ∀ i ∈ U, ∀ j ∈ succs env i, j ∈ U)
    (hwf : ∀ i ∈ U, relocsOk env (allocOf env i))
    (hinj : ∀ i ∈ U, ∀ j ∈ U, itemName env i = itemName env j → i = j)
    (s : LoopState) (item : TodoItem) (rest : List TodoItem)
    (htodo : s.todo = item :: rest) (hinv : LoopInv env U todo0 s)
    (hnf : itemIsForeign env item = false)
    (m₁ : ModuleState)
    (hdefs₁ : m₁.defs = s.module.defs)
    (hcalls₁ : m₁.defineCalls = s.module.defineCalls) :
    ∃ s', defineAlloc env (itemName env item) (allocOf env item)
        { todo := rest, done := s.done, module := m₁ } = Except.ok s' ∧
      LoopInv env U todo0 s' ∧ loopMeasure env U s' < loopMeasure env U s := by
  have hitem : item ∈ U :=
    hinv.todoU item (by rw [htodo]; exact List.mem_cons_self _ _)
  have hrestU : ∀ i ∈ rest, i ∈ U := fun i hi =>
    hinv.todoU i (by rw [htodo]; exact List.mem_cons_of_mem _ hi)
  have hndrest : rest.Nodup := by
    have h := hinv.todoNodup
    rw [htodo] at h
    exact (List.nodup_cons.mp h).2
  by_cases hdone : itemName env item ∈ s.done
  · refine ⟨_, defineAlloc_skip env _ _ _ hdone, ?_, ?_⟩
    · exact skip_inv env U todo0 s item rest htodo hinv (Or.inr hdone) m₁
        hdefs₁ hcalls₁
    · exact loopMeasure_decrease_skip env U s _ item rest htodo rfl rfl
  · have hndef : itemName env item ∉ m₁.definedIds := by
      unfold ModuleState.definedIds
      rw [hdefs₁, hinv.defsDone]
      exact hdone
    obtain ⟨s', hs', hdone', hcalls', ⟨fr, hdefs'⟩, hmem', hnd'⟩ :=
      defineAlloc_spec env (itemName env item) (allocOf env item)
        { todo := rest, done := s.done, module := m₁ } (hwf item hitem) hdone hndef
    have hsucc_eq : memSuccsOf env (allocOf env item).relocations = succs env item :=
      memSuccsOf_eq_succs env item hnf
    have htodoU' : ∀ j ∈ s'.todo, j ∈ U := by
      intro j hj
      rcases (hmem' j).mp hj with hj | hj
      · exact hrestU j hj
      · rw [hsucc_eq] at hj
        exact hUc item hitem j hj
    have hnd'' : s'.todo.Nodup := hnd' hndrest
    refine ⟨s', hs', ?_, ?_⟩
    · constructor
      · exact htodoU'
      · exact hnd''
      · rw [hdefs', hdone']
        simp only [List.map_append, List.map_cons, List.map_nil]
        rw [hdefs₁, hinv.defsDone]
      · rw [hcalls', hcalls₁, hinv.callsDone, hdone']
      · rw [hdone', List.nodup_append]
        refine ⟨hinv.doneNodup, List.nodup_singleton _, ?_⟩
        intro x hx hx'
        rw [List.mem_singleton] at hx'
        subst hx'
        exact hdone hx
      · intro x hx
        rw [hdone'] at hx
        rcases List.mem_append.mp hx with hx | hx
        · exact hinv.doneU x hx
        · rw [List.mem_singleton] at hx
          exact ⟨item, hitem, hx.symm⟩
      · intro i hi hif
        rcases hinv.initInv i hi hif with hin | hdn
        · rw [htodo] at hin
          rcases List.mem_cons.mp hin with rfl | hin
          · refine Or.inr ?_
            rw [hdone']
            simp
          · exact Or.inl ((hmem' i).mpr (Or.inl hin))
        · refine Or.inr ?_
          rw [hdone']
          exact List.mem_append.mpr (Or.inl hdn)
      · intro i hiU hname j hj
        rw [hdone'] at hname
        rcases List.mem_append.mp hname with hname | hname
        · rcases hinv.doneSuccs i hiU hname j hj with hin | hdn
          · rw [htodo] at hin
            rcases List.mem_cons.mp hin with rfl | hin
            · refine Or.inr ?_
              rw [hdone']
              simp
            · exact Or.inl ((hmem' j).mpr (Or.inl hin))
          · refine Or.inr ?_
            rw [hdone']
            exact List.mem_append.mpr (Or.inl hdn)
        · rw [List.mem_singleton] at hname
          have hieq : i = item := hinj i hiU item hitem hname
          subst hieq
          refine Or.inl ((hmem' j).mpr (Or.inr ?_))
          rw [hsucc_eq]
          exact hj
    · refine loopMeasure_decrease_define env U s s' (itemName env item) hdone'
        ?_ hdone ?_
      · exact List.mem_map.mpr ⟨item, hitem, rfl⟩
      · exact nodup_subset_length s'.todo U hnd'' htodoU'

theorem step_ok (env : Env) (U todo0 : List TodoItem)
    (hUc : ∀ i ∈ U, ∀ j ∈ succs env i, j ∈ U)
    (hwf : ∀ i ∈ U, relocsOk env (allocOf env i))
    (hal : ∀ d, TodoItem.static d ∈ U → env.staticAlignPref d ≤ 255)
    (hinj : ∀ i ∈ U, ∀ j ∈ U, itemName env i = itemName env j → i = j)
    (s : LoopState) (item : TodoItem) (rest : List TodoItem)
    (htodo : s.todo = item :: rest) (hinv : LoopInv env U todo0 s) :
    ∃ s', processTodoItem env item { s with todo := rest } = Except.ok s' ∧
      LoopInv env U todo0 s' ∧ loopMeasure env U s' < loopMeasure env U s := by
  have hitem : item ∈ U :=
    hinv.todoU item (by rw [htodo]; exact List.mem_cons_self _ _)
  cases item with
  | alloc a =>
    have key := defineAlloc_step_inv env U todo0 hUc hwf hinj s
      (TodoItem.alloc a) rest htodo hinv rfl
      (data_id_for_alloc_id s.module a (env.memory a).align).2 rfl rfl
    exact key
  | static d =>
    by_cases hf : env.isForeignItem d = true
    · refine ⟨{ s with todo := rest }, ?_, ?_, ?_⟩
      · simp [processTodoItem, hf]
      · have h := skip_inv env U todo0 s (TodoItem.static d) rest htodo hinv
          (Or.inl (by simp [itemIsForeign, hf])) s.module rfl rfl
        exact h
      · exact loopMeasure_decrease_skip env U s _ _ rest htodo rfl rfl
    · have hlk : (if env.isReachableNonGeneric d then Linkage.export_
          else Linkage.local_) ≠ Linkage.preemptible := by
        by_cases hb : env.isReachableNonGeneric d <;> simp [hb]
      obtain ⟨m₁, hcall, hdefs₁, hcalls₁⟩ :=
        data_id_for_static_nonpre env s.module d _ hlk (hal d hitem)
      have key := defineAlloc_step_inv env U todo0 hUc hwf hinj s
        (TodoItem.static d) rest htodo hinv (by simp [itemIsForeign, hf])
        m₁ hdefs₁ hcalls₁
      have hproc : processTodoItem env (TodoItem.static d) { s with todo := rest } =
          defineAlloc env (env.symbolName d) (env.staticAlloc d)
            { todo := rest, done := s.done, module := m₁ } := by
        simp [processTodoItem, hf, hcall]
      rw [hproc]
      exact key

theorem runLoop_total (env : Env) (U todo0 : List TodoItem)
    (hUc : ∀ i ∈ U, ∀ j ∈ succs env i, j ∈ U)
    (hwf : ∀ i ∈ U, relocsOk env (allocOf env i))
    (hal : ∀ d, TodoItem.static d ∈ U → env.staticAlignPref d ≤ 255)
    (hinj : ∀ i ∈ U, ∀ j ∈ U, itemName env i = itemName env j → i = j) :
    ∀ b s, loopMeasure env U s ≤ b → LoopInv env U todo0 s →
      ∃ n s', define_all_allocs env n s = Except.ok s' ∧ s'.todo = [] ∧
        LoopInv env U todo0 s' := by
  intro b
  induction b with
  | zero =>
    intro s hm hinv
    have h1 : s.todo.length ≤ loopMeasure env U s := Nat.le_add_left _ _
    have h2 : s.todo = [] := List.length_eq_zero.mp (by omega)
    exact ⟨0, s, rfl, h2, hinv⟩
  | succ b ih =>
    intro s hm hinv
    cases htodo : s.todo with
    | nil => exact ⟨0, s, rfl, htodo, hinv⟩
    | cons item rest =>
      obtain ⟨s', hstep, hinv', hmeas⟩ :=
        step_ok env U todo0 hUc hwf hal hinj s item rest htodo hinv
      obtain ⟨n, s'', hrun, hend, hinv''⟩ := ih s' (by omega) hinv'
      refine ⟨n + 1, s'', ?_, hend, hinv''⟩
      show define_all_allocs env (Nat.succ n) s = Except.ok s''
      simp only [define_all_allocs, htodo, hstep]
      exact hrun

theorem complete_of_final (env : Env) (U todo0 : List TodoItem)
    (hU0 : ∀ i ∈ todo0, i ∈ U)
    (hUc : ∀ i ∈ U, ∀ j ∈ succs env i, j ∈ U)
    (s' : LoopState) (hinv' : LoopInv env U todo0 s') (hend : s'.todo = []) :
    ∀ i, Reachable env todo0 i → itemIsForeign env i = false →
      itemName env i ∈ s'.done := by
  intro i hreach
  induction hreach with
  | base hi =>
    intro hif
    rcases hinv'.initInv _ hi hif with hin | hdn
    · rw [hend] at hin
      cases hin
    · exact hdn
  | @step i0 j0 h1 h2 ih =>
    intro _
    have hif' : itemIsForeign env i0 = false := by
      by_cases hfi : itemIsForeign env i0 = true
      · rw [succs_of_foreign env i0 hfi] at h2
        cases h2
      · simpa using hfi
    have hiU : i0 ∈ U := reachable_in_U env U todo0 hU0 hUc i0 h1
    have hnm : itemName env i0 ∈ s'.done := ih hif'
    rcases hinv'.doneSuccs i0 hiU hnm _ h2 with hin | hdn
    · rw [hend] at hin
      cases hin
    · exact hdn

/-- Claim C2: for every finite constant reference graph (a finite
universe U of items closed under discovered successors, which covers
self-cycles and mutual cycles), define_all_allocs — the body of
finalize — terminates: some fuel reaches a final state whose todo set
is empty, in which every non-foreign item reachable from the initial
requests has its DataObjectId in done, done holds no duplicates (each
id entered once: an item popped again after definition is filtered by
the done check and never defined a second time), and define_data was
called exactly once for that id. -/
theorem finalize_terminates_completes (env : Env) (U todo0 : List TodoItem)
    (m0 : ModuleState)
    (hU0 : ∀ i ∈ todo0, i ∈ U)
    (hUc : ∀ i ∈ U, ∀ j ∈ succs env i, j ∈ U)
    (hwf : ∀ i ∈ U, relocsOk env (allocOf env i))
    (hal : ∀ d, TodoItem.static d ∈ U → env.staticAlignPref d ≤ 255)
    (hinj : ∀ i ∈ U, ∀ j ∈ U, itemName env i = itemName env j → i = j)
    (hnd0 : todo0.Nodup)
    (hm0defs : m0.defs = []) (hm0calls : m0.defineCalls = []) :
    ∃ n s', define_all_allocs env n { todo := todo0, done := [], module := m0 } =
        Except.ok s' ∧
      s'.todo = [] ∧ s'.done.Nodup ∧
      (∀ i, Reachable env todo0 i → itemIsForeign env i = false →
        itemName env i ∈ s'.done ∧
        s'.module.defineCalls.count (itemName env i) = 1) := by
  have hinv0 : LoopInv env U todo0 { todo := todo0, done := [], module := m0 } := by
    constructor
    · exact hU0
    · exact hnd0
    · show m0.defs.map DataDef.id = []
      rw [hm0defs]
      rfl
    · exact hm0calls
    · exact List.nodup_nil
    · intro x hx
      cases hx
    · intro i hi _
      exact Or.inl hi
    · intro i _ hname _ _
      cases hname
  obtain ⟨n, s', hrun, hend, hinv'⟩ := runLoop_total env U todo0 hUc hwf hal hinj
    (loopMeasure env U { todo := todo0, done := [], module := m0 }) _ le_rfl hinv0
  refine ⟨n, s', hrun, hend, hinv'.doneNodup, ?_⟩
  intro i hreach hif
  have hmem : itemName env i ∈ s'.done :=
    complete_of_final env U todo0 hU0 hUc s' hinv' hend i hreach hif
  refine ⟨hmem, ?_⟩
  rw [hinv'.callsDone]
  exact List.count_eq_one_of_mem hinv'.doneNodup hmem

theorem finalize_terminates_completes_witness :
    ∃ n s', define_all_allocs sampleEnv n
        { todo := [TodoItem.alloc 0], done := [], module := emptyModule } =
        Except.ok s' ∧
      s'.todo = [] ∧ s'.done.Nodup ∧
      (∀ i, Reachable sampleEnv [TodoItem.alloc 0] i →
        itemIsForeign sampleEnv i = false →
        itemName sampleEnv i ∈ s'.done ∧
        s'.module.defineCalls.count (itemName sampleEnv i) = 1) :=
  finalize_terminates_completes sampleEnv
    [TodoItem.alloc 0, TodoItem.alloc 1] [TodoItem.alloc 0] emptyModule
    (by decide) (by decide)
    (by
      intro i hi
      rcases List.mem_cons.mp hi with rfl | hi
      · intro r hr
        have hrl : (allocOf sampleEnv (TodoItem.alloc 0)).relocations =
            [(0, 1)] := rfl
        rw [hrl] at hr
        have hr1 : r = (0, 1) := by simpa using hr
        subst hr1
        exact ⟨by decide, trivial⟩
      · rcases List.mem_cons.mp hi with rfl | hi
        · intro r hr
          have hrl : (allocOf sampleEnv (TodoItem.alloc 1)).relocations =
              [(0, 0)] := rfl
          rw [hrl] at hr
          have hr0 : r = (0, 0) := by simpa using hr
          subst hr0
          exact ⟨by decide, trivial⟩
        · cases hi)
    (by
      intro d hd
      simp at hd)
    (by decide) (by decide) rfl rfl

theorem insertTodo_idem (a : TodoItem) (l : List TodoItem) :
    insertTodo a (insertTodo a l) = insertTodo a l := by
  unfold insertTodo
  by_cases h : a ∈ l
  · rw [if_pos h, if_pos h]
  · rw [if_neg h, if_pos (by simp)]

theorem requestConstN_module (env : Env) (c : MirConst) :
    ∀ (N : Nat) (m : ModuleState) (todo : List TodoItem),
      (requestConstN env c N m todo).1.defs = m.defs ∧
      (requestConstN env c N m todo).1.defineCalls = m.defineCalls := by
  intro N
  induction N with
  | zero => exact fun m todo => ⟨rfl, rfl⟩
  | succ k ih =>
    intro m todo
    simp only [requestConstN, trans_const_place]
    exact ⟨(ih _ _).1, (ih _ _).2⟩

theorem requestConstN_todo (env : Env) (c : MirConst) :
    ∀ (N : Nat) (m : ModuleState) (todo : List TodoItem),
      (requestConstN env c N m todo).2 =
        if N = 0 then todo
        else insertTodo (TodoItem.alloc (env.evalPlaceAlloc c)) todo := by
  intro N
  induction N with
  | zero => exact fun m todo => rfl
  | succ k ih =>
    intro m todo
    simp only [requestConstN, trans_const_place]
    rw [show ((if TodoItem.alloc (env.evalPlaceAlloc c) ∈ todo then todo
        else todo ++ [TodoItem.alloc (env.evalPlaceAlloc c)])) =
        insertTodo (TodoItem.alloc (env.evalPlaceAlloc c)) todo from rfl]
    rw [ih]
    by_cases hk : k = 0
    · rw [if_pos hk, if_neg (by omega)]
    · rw [if_neg hk, if_neg (by omega), insertTodo_idem]

/-- Claim C3: requesting materialization of the same AllocationId N ≥ 1
times within one ConstantSession leaves exactly one todo entry (the
N - 1 further requests are no-ops on the set), performs no define_data
call at request time, and the finalize worklist then performs exactly
one define_data call for its DataObjectId. -/
theorem materialization_idempotent (env : Env) (U : List TodoItem)
    (m0 : ModuleState) (c : MirConst) (N : Nat) (hN : 1 ≤ N)
    (ha : TodoItem.alloc (env.evalPlaceAlloc c) ∈ U)
    (hUc : ∀ i ∈ U, ∀ j ∈ succs env i, j ∈ U)
    (hwf : ∀ i ∈ U, relocsOk env (allocOf env i))
    (hal : ∀ d, TodoItem.static d ∈ U → env.staticAlignPref d ≤ 255)
    (hinj : ∀ i ∈ U, ∀ j ∈ U, itemName env i = itemName env j → i = j)
    (hm0defs : m0.defs = []) (hm0calls : m0.defineCalls = []) :
    (requestConstN env c N m0 []).2 = [TodoItem.alloc (env.evalPlaceAlloc c)] ∧
    (requestConstN env c N m0 []).1.defineCalls = [] ∧
    ∃ n s', define_all_allocs env n
        { todo := (requestConstN env c N m0 []).2, done := [],
          module := (requestConstN env c N m0 []).1 } = Except.ok s' ∧
      s'.todo = [] ∧
      s'.module.defineCalls.count
        ("__alloc_" ++ toString (env.evalPlaceAlloc c)) = 1 := by
  have htodo1 : (requestConstN env c N m0 []).2 =
      [TodoItem.alloc (env.evalPlaceAlloc c)] := by
    rw [requestConstN_todo, if_neg (by omega)]
    rfl
  have hm1 := requestConstN_module env c N m0 []
  refine ⟨htodo1, by rw [hm1.2, hm0calls], ?_⟩
  have hinv0 : LoopInv env U [TodoItem.alloc (env.evalPlaceAlloc c)]
      { todo := (requestConstN env c N m0 []).2, done := [],
        module := (requestConstN env c N m0 []).1 } := by
    constructor
    · intro i hi
      rw [htodo1] at hi
      rcases List.mem_singleton.mp hi with rfl
      exact ha
    · rw [htodo1]
      exact List.nodup_singleton _
    · show (requestConstN env c N m0 []).1.defs.map DataDef.id = []
      rw [hm1.1, hm0defs]
      rfl
    · show (requestConstN env c N m0 []).1.defineCalls = []
      rw [hm1.2, hm0calls]
    · exact List.nodup_nil
    · intro x hx
      cases hx
    · intro i hi _
      refine Or.inl ?_
      rw [htodo1]
      exact hi
    · intro i _ hname _ _
      cases hname
  obtain ⟨n, s', hrun, hend, hinv'⟩ :=
    runLoop_total env U [TodoItem.alloc (env.evalPlaceAlloc c)] hUc hwf hal hinj
      (loopMeasure env U _) _ le_rfl hinv0
  refine ⟨n, s', hrun, hend, ?_⟩
  have hmem : itemName env (TodoItem.alloc (env.evalPlaceAlloc c)) ∈ s'.done :=
    complete_of_final env U [TodoItem.alloc (env.evalPlaceAlloc c)]
      (by
        intro i hi
        rcases List.mem_singleton.mp hi with rfl
        exact ha)
      hUc s' hinv' hend _ (Reachable.base (List.mem_singleton.mpr rfl)) rfl
  rw [hinv'.callsDone]
  exact List.count_eq_one_of_mem hinv'.doneNodup hmem

theorem materialization_idempotent_witness :
    (requestConstN sampleEnv { ty := TyKind.other, val := ConstVal.byRef } 3
        emptyModule []).2 = [TodoItem.alloc 0] ∧
    (requestConstN sampleEnv { ty := TyKind.other, val := ConstVal.byRef } 3
        emptyModule []).1.defineCalls = [] ∧
    ∃ n s', define_all_allocs sampleEnv n
        { todo := (requestConstN sampleEnv
            { ty := TyKind.other, val := ConstVal.byRef } 3 emptyModule []).2,
          done := [],
          module := (requestConstN sampleEnv
            { ty := TyKind.other, val := ConstVal.byRef } 3 emptyModule []).1 } =
        Except.ok s' ∧
      s'.todo = [] ∧
      s'.module.defineCalls.count ("__alloc_" ++ toString 0) = 1 :=
  materialization_idempotent sampleEnv
    [TodoItem.alloc 0, TodoItem.alloc 1] emptyModule
    { ty := TyKind.other, val := ConstVal.byRef } 3 (by decide) (by decide)
    (by decide)
    (by
      intro i hi
      rcases List.mem_cons.mp hi with rfl | hi
      · intro r hr
        have hrl : (allocOf sampleEnv (TodoItem.alloc 0)).relocations =
            [(0, 1)] := rfl
        rw [hrl] at hr
        have hr1 : r = (0, 1) := by simpa using hr
        subst hr1
        exact ⟨by decide, trivial⟩
      · rcases List.mem_cons.mp hi with rfl | hi
        · intro r hr
          have hrl : (allocOf sampleEnv (TodoItem.alloc 1)).relocations =
              [(0, 0)] := rfl
          rw [hrl] at hr
          have hr0 : r = (0, 0) := by simpa using hr
          subst hr0
          exact ⟨by decide, trivial⟩
        · cases hi)
    (by
      intro d hd
      simp at hd)
    (by decide) rfl rfl

end ClifConst
